import Mathlib

/-!
Verification of the real-time media pipeline of the `impasse` repository
(frontend negotiation client, `OpponentOrb.tsx`): resampler/encoder,
barge-in detector, TTS playback scheduling, cancellation, and the
chunked multipart upload pipeline.

Numbers that the JavaScript source manipulates as IEEE doubles are
modelled as exact rationals; machine integers written into typed arrays
are modelled as `Int` with the JS `ToInt16` truncation made explicit.
-/

namespace Impasse

/-! ### Resampler / Encoder (`downsampleBuffer`, `floatTo16BitPCM`) -/

/-- Truncation toward zero, the conversion JS applies when a fractional
number is stored into an `Int16Array` element (`ToInt16` drops the
fractional part). -/
def truncTowardZero (q : ℚ) : ℤ :=
  if q < 0 then -(Int.floor (-q)) else Int.floor q

/-- One sample of `floatTo16BitPCM` (source lines 231-238): clamp to
[-1,1] with `Math.max(-1, Math.min(1, x))`, scale by `0x8000` when
negative and `0x7fff` otherwise, and store into the `Int16Array`
(truncating toward zero). -/
def jsToInt16 (x : ℚ) : ℤ :=
  let s := max (-1) (min 1 x)
  if s < 0 then truncTowardZero (s * 32768) else truncTowardZero (s * 32767)

/-- `floatTo16BitPCM` (source lines 231-238): elementwise PCM16
encoding of a Float32 buffer. -/
def floatTo16BitPCM (input : List ℚ) : List ℤ :=
  input.map jsToInt16

/-- Index range visited by the inner `for` loop of `downsampleBuffer`
(source lines 216-223): `i` runs from `offsetBuffer` while
`i < nextOffsetBuffer && i < input.length`. -/
def windowIdx (len offsetBuffer nextOffsetBuffer : ℕ) : List ℕ :=
  List.range' offsetBuffer (min nextOffsetBuffer len - offsetBuffer)

/-- `accum` computed by the inner loop: sum of the input samples in the
window. -/
def windowSum (input : List ℚ) (offsetBuffer nextOffsetBuffer : ℕ) : ℚ :=
  ((windowIdx input.length offsetBuffer nextOffsetBuffer).map
    fun i => input.getD i 0).sum

/-- `count` computed by the inner loop: number of samples in the
window. -/
def windowCount (len offsetBuffer nextOffsetBuffer : ℕ) : ℕ :=
  (windowIdx len offsetBuffer nextOffsetBuffer).length

/-- The `while (offsetResult < result.length)` loop of
`downsampleBuffer` (source lines 212-227), with `fuel` the number of
output slots still to fill; each iteration computes
`nextOffsetBuffer = Math.round((offsetResult + 1) * ratio)`, averages
the window, divides by `Math.max(count, 1)` and advances both
offsets. -/
def downsampleGo (input : List ℚ) ( ratio : ℚ)
    (offsetBuffer offsetResult : ℕ) : ℕ → List ℚ
  | 0 => []
  | fuel + 1 =>
    let nextOffsetBuffer := (round (((offsetResult : ℚ) + 1) * ratio)).toNat
    windowSum input offsetBuffer nextOffsetBuffer /
        (max (windowCount input.length offsetBuffer nextOffsetBuffer) 1 : ℕ) ::
      downsampleGo input ratio nextOffsetBuffer (offsetResult + 1) fuel

/-- `downsampleBuffer` (source lines 199-229): identity when the rates
are equal, otherwise box-average resampling with
`ratio = inputSampleRate / outputSampleRate` and output length
`Math.round(input.length / ratio)`. -/
def downsampleBuffer (input : List ℚ)
    (inputSampleRate outputSampleRate : ℚ) : List ℚ :=
  if outputSampleRate = inputSampleRate then input
  else
    let ratio := inputSampleRate / outputSampleRate
    let newLength := (round ((input.length : ℚ) / ratio)).toNat
    downsampleGo input ratio 0 0 newLength

/-! ### TTS playback scheduling (`audio_chunk` handler, lines 1077-1127) -/

/-- One inbound `audio_chunk` socket event, as seen by the scheduler:
the playback clock reading `context.currentTime` at handling time, and
the decoded PCM sample count of the chunk. -/
structure ChunkEvent where
  clockNow : ℚ
  pcmLen : ℕ
deriving DecidableEq

/-- `startTime = Math.max(context.currentTime, ttsQueueEndRef.current)`
(source lines 1116-1119). -/
def chunkStartTime (clockNow queueEnd : ℚ) : ℚ :=
  max clockNow queueEnd

/-- `audioBuffer.duration` of a buffer created with `pcm.length` frames
at 44100 Hz (source line 1093). -/
def chunkDuration (pcmLen : ℕ) : ℚ :=
  (pcmLen : ℚ) / 44100

/-- New watermark after one `audio_chunk` event:
`ttsQueueEndRef.current = startTime + audioBuffer.duration`
(source line 1121). -/
def queueEndAfter (queueEnd : ℚ) (e : ChunkEvent) : ℚ :=
  chunkStartTime e.clockNow queueEnd + chunkDuration e.pcmLen

/-- The `(startTime, duration)` pairs at which successive `audio_chunk`
events schedule their sources, starting from watermark `queueEnd`. -/
def scheduleChunks (queueEnd : ℚ) : List ChunkEvent → List (ℚ × ℚ)
  | [] => []
  | e :: es =>
    let t := chunkStartTime e.clockNow queueEnd
    let d := chunkDuration e.pcmLen
    (t, d) :: scheduleChunks (t + d) es

/-- Successive values of `ttsQueueEndRef.current` along a run of
`audio_chunk` events (initial value first). -/
def queueEndTrace (queueEnd : ℚ) : List ChunkEvent → List ℚ
  | [] => [queueEnd]
  | e :: es => queueEnd :: queueEndTrace (queueEndAfter queueEnd e) es

/-! ### Cancellation (`stopTtsPlayback`, lines 918-946) -/

/-- Agent status values the handler writes. -/
inductive AgentStatus where
  | idle
  | speaking
  | disconnected
deriving DecidableEq

/-- The mutable playback state touched by `stopTtsPlayback`:
`ttsSourcesRef` (handles of tracked sources), `isTtsPlayingRef`,
`ttsQueueEndRef`, `ttsEndTimerRef`, and the rendered agent
status/activity. -/
structure TtsPlaybackState where
  ttsSources : List ℕ
  isTtsPlaying : Bool
  ttsQueueEnd : ℚ
  ttsEndTimer : Option ℕ
  agentStatus : AgentStatus
  agentActivity : ℚ
deriving DecidableEq

/-- Result of `stopTtsPlayback`: the new state, the sources on which
`stop()`/`disconnect()` was called, and the messages sent over the
socket. -/
structure StopEffect where
  state : TtsPlaybackState
  stoppedSources : List ℕ
  sentMessages : List String
deriving DecidableEq

/-- `stopTtsPlayback` (source lines 918-946): stop and disconnect every
tracked source, empty the list, clear `isTtsPlayingRef`, set
`ttsQueueEndRef.current = 0`, clear the end timer, set agent status to
idle with activity 0, and send a `barge_in` message when the socket is
open. -/
def stopTtsPlayback (s : TtsPlaybackState) (wsOpen : Bool) : StopEffect :=
  { state :=
      { ttsSources := []
        isTtsPlaying := false
        ttsQueueEnd := 0
        ttsEndTimer := none
        agentStatus := AgentStatus.idle
        agentActivity := 0 }
    stoppedSources := s.ttsSources
    sentMessages := if wsOpen then ["barge_in"] else [] }

/-! ### Barge-in detection and the uplink tick
(`processor.onaudioprocess`, lines 1208-1238) -/

/-- Barge-in state carried across audio-processing ticks:
`speechFrameCountRef`, `lastBargeInRef` and `ttsStartTimeRef`
(all in milliseconds of `Date.now()`). -/
structure BargeInState where
  speechFrameCount : ℕ
  lastBargeIn : ℤ
  ttsStartTime : ℤ
deriving DecidableEq

/-- `const speechThreshold = 0.05` (source line 1218). -/
def speechThreshold : ℚ := 1 / 20

/-- One audio-processing tick's inputs to the barge-in logic: the RMS
energy the code computes from the frame (the square root itself is kept
abstract; only the comparisons the code performs on it are modelled),
the `isTtsPlayingRef` flag, and the `Date.now()` reading. -/
structure AudioTick where
  rms : ℚ
  isTtsPlaying : Bool
  now : ℤ
deriving DecidableEq

/-- Whether a tick's frame qualifies for the consecutive-speech counter:
`isTtsPlayingRef.current && rms > speechThreshold` (source line 1221). -/
def frameQualifies (t : AudioTick) : Bool :=
  t.isTtsPlaying && decide (speechThreshold < t.rms)

/-- The barge-in portion of `processor.onaudioprocess` (source lines
1220-1233): bump or reset `speechFrameCountRef`; when the counter
reaches 3 while TTS is playing, fire the cancellation only if more than
500 ms have elapsed since playback started and more than 1000 ms since
the previous barge-in, recording `lastBargeInRef = now`; in either case
reset the counter. Returns the new state and whether the cancellation
fired. -/
def bargeStep (s : BargeInState) (t : AudioTick) : BargeInState × Bool :=
  let count :=
    if t.isTtsPlaying ∧ speechThreshold < t.rms then s.speechFrameCount + 1 else 0
  if t.isTtsPlaying ∧ 3 ≤ count then
    if 500 < t.now - s.ttsStartTime ∧ 1000 < t.now - s.lastBargeIn then
      ({ s with speechFrameCount := 0, lastBargeIn := t.now }, true)
    else
      ({ s with speechFrameCount := 0 }, false)
  else
    ({ s with speechFrameCount := count }, false)

/-- Barge-in state after processing a list of ticks. -/
def bargeRun (s : BargeInState) (ts : List AudioTick) : BargeInState :=
  ts.foldl (fun s t => (bargeStep s t).1) s

/-- Whether the barge-in cancellation fires at tick index `j` of a run
started from `s0`. -/
def firedAt (s0 : BargeInState) (ts : List AudioTick) (j : ℕ) : Bool :=
  match ts[j]? with
  | none => false
  | some t => (bargeStep (bargeRun s0 (ts.take j)) t).2

/-- `Date.now()` reading of tick `j` (0 when out of range). -/
def tickNow (ts : List AudioTick) (j : ℕ) : ℤ :=
  match ts[j]? with
  | none => 0
  | some t => t.now

/-- Whether tick `j` qualifies (false when out of range). -/
def qualAt (ts : List AudioTick) (j : ℕ) : Bool :=
  match ts[j]? with
  | none => false
  | some t => frameQualifies t

/-- A demonstration tick sequence: six qualifying frames during active
playback, three at t = 2000 ms and three at t = 4000 ms. -/
def bargeDemoTicks : List AudioTick :=
  [⟨1/10, true, 2000⟩, ⟨1/10, true, 2000⟩, ⟨1/10, true, 2000⟩,
    ⟨1/10, true, 4000⟩, ⟨1/10, true, 4000⟩, ⟨1/10, true, 4000⟩]

/-- The whole `processor.onaudioprocess` callback (source lines
1208-1238): return immediately when the socket is not open or the
session is muted; otherwise run the barge-in logic and transmit the
frame resampled to 16 kHz and encoded as PCM16. Returns the new
barge-in state, whether the cancellation fired, and the transmitted
payload (when any). -/
def onAudioProcess (wsOpen muted : Bool) (s : BargeInState) (t : AudioTick)
    (input : List ℚ) (ctxSampleRate : ℚ) :
    BargeInState × Bool × Option (List ℤ) :=
  if ¬wsOpen ∨ muted then (s, false, none)
  else
    let r := bargeStep s t
    (r.1, r.2, some (floatTo16BitPCM (downsampleBuffer input ctxSampleRate 16000)))

/-! ### Chunked multipart upload pipeline (lines 577-676) -/

/-- `const MIN_PART_SIZE = 5 * 1024 * 1024` (source line 178). -/
def MIN_PART_SIZE : ℕ := 5 * 1024 * 1024

/-- A recorder segment (`Blob`), as its byte contents. -/
abbrev Chunk := List ℕ

/-- An entry of `uploadedPartsRef`: the part number together with the
payload whose etag was recorded (the etag is a server-issued digest of
exactly these bytes, so the payload stands for it). -/
structure UploadedPart where
  part_number : ℕ
  bytes : List ℕ
deriving DecidableEq

/-- The mutable upload state: `pendingChunksRef`, `uploadedPartsRef`
and `partNumberRef`. -/
structure UploadPipelineState where
  pendingChunks : List Chunk
  uploadedParts : List UploadedPart
  partNumber : ℕ
deriving DecidableEq

/-- State installed when the recorder starts (source lines 577-580). -/
def initUploadState : UploadPipelineState :=
  { pendingChunks := [], uploadedParts := [], partNumber := 1 }

/-- Total byte size of a chunk list
(`reduce((sum, chunk) => sum + chunk.size, 0)`). -/
def chunksSize (cs : List Chunk) : ℕ :=
  (cs.map List.length).sum

/-- `new Blob(chunks)` concatenates the chunk contents. -/
def blobOf (cs : List Chunk) : List ℕ :=
  cs.flatten

/-- The body of `uploadAccumulatedChunks` past the size guard (source
lines 609-632): seal the whole pending buffer as `chunksToUpload`,
take the current part number and increment the counter, then attempt
the upload.  `arrivedDuring` are the segments `ondataavailable`
appended to the (emptied) pending buffer while the network request was
in flight.  On success the part is recorded; on failure the sealed
chunks are put back in front of the pending buffer and the part-number
counter is restored. -/
def attemptPartUpload (s : UploadPipelineState) (arrivedDuring : List Chunk)
    (ok : Bool) : UploadPipelineState :=
  let chunksToUpload := s.pendingChunks
  let partBlob := blobOf chunksToUpload
  let n := s.partNumber
  if ok then
    { pendingChunks := arrivedDuring
      uploadedParts := s.uploadedParts ++ [⟨n, partBlob⟩]
      partNumber := n + 1 }
  else
    { pendingChunks := chunksToUpload ++ arrivedDuring
      uploadedParts := s.uploadedParts
      partNumber := n }

/-- `uploadAccumulatedChunks` (source lines 599-639) together with its
tail re-check: while the pending buffer holds at least
`MIN_PART_SIZE` bytes, seal and attempt a part upload; each list entry
supplies the segments that arrive during that attempt and the attempt's
outcome. -/
def uploadAccumulatedChunks (s : UploadPipelineState) :
    List (List Chunk × Bool) → UploadPipelineState
  | [] => s
  | (arrived, ok) :: rest =>
    if chunksSize s.pendingChunks < MIN_PART_SIZE then s
    else uploadAccumulatedChunks (attemptPartUpload s arrived ok) rest

/-- `mediaRecorder.ondataavailable` (source lines 641-648): ignore empty
segments, append the segment to the pending buffer, then try to upload
accumulated parts. -/
def onDataAvailable (s : UploadPipelineState) (data : Chunk)
    (outcomes : List (List Chunk × Bool)) : UploadPipelineState :=
  if data.length = 0 then s
  else
    uploadAccumulatedChunks
      { s with pendingChunks := s.pendingChunks ++ [data] } outcomes

/-- `mediaRecorder.onstop` (source lines 650-676, assuming an active
upload session): when the pending buffer is nonempty, upload its whole
contents as the final part under the current part number; record it on
success. -/
def onRecorderStop (s : UploadPipelineState) (ok : Bool) : UploadPipelineState :=
  if s.pendingChunks = [] then s
  else if ok then
    { s with uploadedParts :=
        s.uploadedParts ++ [UploadedPart.mk s.partNumber (blobOf s.pendingChunks)] }
  else s

/-- A full recording run in which every part upload succeeds: each
recorder segment is delivered in order (with a successful upload
attempt available whenever the pending buffer is large enough), and the
recorder is then stopped. -/
def runUploadStream (chunks : List Chunk) : UploadPipelineState :=
  onRecorderStop
    (chunks.foldl (fun s c => onDataAvailable s c [([], true)]) initUploadState)
    true

/-- Invariant of the upload pipeline: part numbers are exactly
`1..k` in order, the counter sits one past the last assigned number,
no byte is lost (uploaded plus pending equals delivered), and every
recorded part holds at least `MIN_PART_SIZE` bytes. -/
def UploadInv (delivered : ℕ) (s : UploadPipelineState) : Prop :=
  s.uploadedParts.map UploadedPart.part_number =
      List.range' 1 s.uploadedParts.length ∧
  s.partNumber = s.uploadedParts.length + 1 ∧
  (s.uploadedParts.map fun p => p.bytes.length).sum +
      chunksSize s.pendingChunks = delivered ∧
  ∀ p ∈ s.uploadedParts, MIN_PART_SIZE ≤ p.bytes.length

/-! ## Theorems -/

/-! ### Helper lemmas: resampler -/

theorem downsampleGo_length (input : List ℚ) ( ratio : ℚ) :
    ∀ (fuel offsetBuffer offsetResult : ℕ),
      (downsampleGo input ratio offsetBuffer offsetResult fuel).length = fuel := by
  intro fuel
  induction fuel with
  | zero => intro _ _; rfl
  | succ n ih => intro ob oR; simp [downsampleGo, ih]

theorem windowCount_zero_windowSum (input : List ℚ) (lo hi : ℕ)
    (h : windowCount input.length lo hi = 0) : windowSum input lo hi = 0 := by
  unfold windowCount windowIdx at h
  unfold windowSum windowIdx
  rw [List.length_range'] at h
  simp [h]

theorem mem_downsampleGo {input : List ℚ} { ratio : ℚ} {x : ℚ} :
    ∀ {fuel offsetBuffer offsetResult : ℕ},
      x ∈ downsampleGo input ratio offsetBuffer offsetResult fuel →
      ∃ lo hi, x = windowSum input lo hi /
          (max (windowCount input.length lo hi) 1 : ℕ) := by
  intro fuel
  induction fuel with
  | zero => intro _ _ h; simp [downsampleGo] at h
  | succ n ih =>
    intro ob oR h
    rw [downsampleGo] at h
    rcases List.mem_cons.mp h with h | h
    · exact ⟨ob, _, h⟩
    · exact ih h

/-- C6 counterexample: the claim says each clamped, scaled sample is
rounded to the nearest integer; on the sample 1/2 the scaled value is
16383.5, which the code (storing into an `Int16Array`) truncates to
16383 while round-to-nearest gives 16384. -/
theorem c6_encodePCM16_counterexample :
    ¬ (floatTo16BitPCM [(1 : ℚ)/2] =
        [(1 : ℚ)/2].map fun x =>
          round ((max (-1) (min 1 x)) *
            (if max (-1) (min 1 x) < 0 then (32768 : ℚ) else 32767))) := by
  norm_num [floatTo16BitPCM, jsToInt16, truncTowardZero, min_def, max_def,
    round_eq]

/-- C6 (amended): `floatTo16BitPCM` produces a buffer of the same
length where each sample is clamped to [-1,1], scaled by 32768 if
negative or 32767 if non-negative, and truncated toward zero (the JS
`Int16Array` store conversion), not rounded to nearest. -/
theorem c6_encodePCM16 (input : List ℚ) :
    (floatTo16BitPCM input).length = input.length ∧
    ∀ i, i < input.length →
      (floatTo16BitPCM input).getD i 0 =
        (let s := max (-1) (min 1 (input.getD i 0))
         if s < 0 then truncTowardZero (s * 32768)
         else truncTowardZero (s * 32767)) := by
  refine ⟨List.length_map _ _, fun i hi => ?_⟩
  have h : input[i]? = some input[i] := List.getElem?_eq_getElem hi
  simp [floatTo16BitPCM, List.getD, h, jsToInt16]

/-- C6 witness: the amended elementwise contract evaluated on the
one-sample buffer [1/2]. -/
theorem c6_encodePCM16_witness :
    (0 < ([(1 : ℚ)/2]).length) ∧
    (floatTo16BitPCM [(1 : ℚ)/2]).getD 0 0 =
      (let s := max (-1) (min 1 (([(1 : ℚ)/2]).getD 0 0))
       if s < 0 then truncTowardZero (s * 32768)
       else truncTowardZero (s * 32767)) :=
  ⟨by simp, (c6_encodePCM16 [(1 : ℚ)/2]).2 0 (by simp)⟩

/-- C7: for positive rates the output length of `downsampleBuffer`
equals `round(inputLength * outputRate / inputRate)` within ±1 sample
(in fact exactly), and equal rates give the identity. -/
theorem c7_resample_length_identity (input : List ℚ) (inRate outRate : ℚ)
    (hin : 0 < inRate) (hout : 0 < outRate) :
    |((downsampleBuffer input inRate outRate).length : ℤ) -
        round ((input.length : ℚ) * outRate / inRate)| ≤ 1 ∧
    downsampleBuffer input inRate inRate = input := by
  constructor
  · by_cases heq : outRate = inRate
    · subst heq
      rw [downsampleBuffer]
      simp only [if_pos rfl]
      rw [mul_div_assoc, div_self (ne_of_gt hout), mul_one, round_natCast]
      simp
    · rw [downsampleBuffer, if_neg heq, downsampleGo_length]
      have hx : (input.length : ℚ) / (inRate / outRate) =
          (input.length : ℚ) * outRate / inRate := div_div_eq_mul_div _ _ _
      rw [hx]
      have hnn : (0 : ℚ) ≤ (input.length : ℚ) * outRate / inRate :=
        div_nonneg (mul_nonneg (Nat.cast_nonneg _) (le_of_lt hout)) (le_of_lt hin)
      have hr : 0 ≤ round ((input.length : ℚ) * outRate / inRate) := by
        rw [round_eq]
        exact Int.floor_nonneg.mpr (by linarith)
      rw [Int.toNat_of_nonneg hr]
      simp
  · rw [downsampleBuffer]
    simp

/-- C7 witness: rates 48000 → 16000 on a three-sample buffer. -/
theorem c7_resample_witness :
    ((0 : ℚ) < 48000) ∧ ((0 : ℚ) < 16000) ∧
    (|((downsampleBuffer [(1 : ℚ), 0, 1] 48000 16000).length : ℤ) -
        round ((List.length [(1 : ℚ), 0, 1] : ℚ) * 16000 / 48000)| ≤ 1 ∧
      downsampleBuffer [(1 : ℚ), 0, 1] 48000 48000 = [(1 : ℚ), 0, 1]) :=
  ⟨by norm_num, by norm_num,
    c7_resample_length_identity [(1 : ℚ), 0, 1] 48000 16000
      (by norm_num) (by norm_num)⟩

/-- C10: every sample `downsampleBuffer` emits is either an input
sample (identity path) or a window average whose divisor
`max(count, 1)` is at least 1; when the window holds no samples the
emitted value is exactly 0. -/
theorem c10_resample_no_div_zero (input : List ℚ) (inRate outRate : ℚ)
    (x : ℚ) (hx : x ∈ downsampleBuffer input inRate outRate) :
    x ∈ input ∨
      ∃ lo hi, 1 ≤ max (windowCount input.length lo hi) 1 ∧
        x = windowSum input lo hi /
          (max (windowCount input.length lo hi) 1 : ℕ) ∧
        (windowCount input.length lo hi = 0 → x = 0) := by
  rw [downsampleBuffer] at hx
  by_cases heq : outRate = inRate
  · rw [if_pos heq] at hx
    exact Or.inl hx
  · rw [if_neg heq] at hx
    obtain ⟨lo, hi, hval⟩ := mem_downsampleGo hx
    refine Or.inr ⟨lo, hi, le_max_right _ _, hval, fun h0 => ?_⟩
    rw [hval, windowCount_zero_windowSum input lo hi h0, zero_div]

/-- C10 witness: upsampling [1,1] from rate 1 to rate 3 produces an
empty input window, whose emitted value is exactly 0. -/
theorem c10_resample_witness :
    ((0 : ℚ) ∈ downsampleBuffer [(1 : ℚ), 1] 1 3) ∧
    ((0 : ℚ) ∈ [(1 : ℚ), 1] ∨
      ∃ lo hi, 1 ≤ max (windowCount (List.length [(1 : ℚ), 1]) lo hi) 1 ∧
        (0 : ℚ) = windowSum [(1 : ℚ), 1] lo hi /
          (max (windowCount (List.length [(1 : ℚ), 1]) lo hi) 1 : ℕ) ∧
        (windowCount (List.length [(1 : ℚ), 1]) lo hi = 0 → (0 : ℚ) = 0)) :=
  ⟨by norm_num [downsampleBuffer, downsampleGo, windowSum, windowCount,
      windowIdx, round_eq, List.range', Int.toNat],
    c10_resample_no_div_zero [(1 : ℚ), 1] 1 3 0
      (by norm_num [downsampleBuffer, downsampleGo, windowSum, windowCount,
        windowIdx, round_eq, List.range', Int.toNat])⟩

/-! ### Helper lemmas: TTS scheduling -/

theorem chunkDuration_nonneg (pcmLen : ℕ) : 0 ≤ chunkDuration pcmLen := by
  unfold chunkDuration
  positivity

theorem queueEnd_le_after (q : ℚ) (e : ChunkEvent) : q ≤ queueEndAfter q e := by
  unfold queueEndAfter chunkStartTime
  have h := chunkDuration_nonneg e.pcmLen
  have h2 : q ≤ max e.clockNow q := le_max_right _ _
  linarith

theorem scheduleChunks_chain'_head (q : ℚ) (es : List ChunkEvent) :
    List.Chain' (fun a b : ℚ × ℚ => a.1 + a.2 ≤ b.1) (scheduleChunks q es) ∧
      ∀ p ∈ (scheduleChunks q es).head?, q ≤ p.1 := by
  induction es generalizing q with
  | nil => simp [scheduleChunks]
  | cons e es ih =>
    rw [scheduleChunks]
    refine ⟨List.Chain'.cons' (ih _).1 fun y hy => ?_, fun p hp => ?_⟩
    · have := (ih (chunkStartTime e.clockNow q + chunkDuration e.pcmLen)).2 y hy
      simpa using this
    · simp only [List.head?_cons, Option.mem_def, Option.some.injEq] at hp
      rw [← hp]
      exact le_max_right _ _

theorem scheduleChunks_chain' (q : ℚ) (es : List ChunkEvent) :
    List.Chain' (fun a b : ℚ × ℚ => a.1 + a.2 ≤ b.1) (scheduleChunks q es) :=
  (scheduleChunks_chain'_head q es).1

theorem queueEndTrace_head (q : ℚ) (es : List ChunkEvent) :
    (queueEndTrace q es).head? = some q := by
  cases es <;> rfl

theorem queueEndTrace_chain' (q : ℚ) (es : List ChunkEvent) :
    List.Chain' (· ≤ ·) (queueEndTrace q es) := by
  induction es generalizing q with
  | nil => simp [queueEndTrace]
  | cons e es ih =>
    rw [queueEndTrace]
    refine List.Chain'.cons' (ih _) fun y hy => ?_
    rw [queueEndTrace_head] at hy
    simp only [Option.mem_def, Option.some.injEq] at hy
    rw [← hy]
    exact queueEnd_le_after q e

/-- C3: each `audio_chunk` source starts at
`max(clockNow, queueEndTime)` and advances the watermark by its
duration, so consecutive scheduled intervals never overlap:
`t_i + d_i ≤ t_{i+1}`. -/
theorem c3_no_overlap (q0 : ℚ) (events : List ChunkEvent) (i : ℕ)
    (h : i + 1 < (scheduleChunks q0 events).length) :
    ((scheduleChunks q0 events).getD i (0, 0)).1 +
        ((scheduleChunks q0 events).getD i (0, 0)).2 ≤
      ((scheduleChunks q0 events).getD (i + 1) (0, 0)).1 := by
  have hi : i < (scheduleChunks q0 events).length :=
    lt_of_le_of_lt (Nat.le_succ i) h
  have hc := List.chain'_iff_get.mp (scheduleChunks_chain' q0 events) i
    (by omega)
  rw [List.getD_eq_getElem _ _ hi, List.getD_eq_getElem _ _ h]
  simpa using hc

/-- C3 witness: two one-second chunks arriving while the clock reads
0, scheduled back to back. -/
theorem c3_no_overlap_witness :
    (0 + 1 < (scheduleChunks 0 [⟨0, 44100⟩, ⟨0, 44100⟩]).length) ∧
    ((scheduleChunks 0 [⟨0, 44100⟩, ⟨0, 44100⟩]).getD 0 (0, 0)).1 +
        ((scheduleChunks 0 [⟨0, 44100⟩, ⟨0, 44100⟩]).getD 0 (0, 0)).2 ≤
      ((scheduleChunks 0 [⟨0, 44100⟩, ⟨0, 44100⟩]).getD 1 (0, 0)).1 :=
  ⟨by simp [scheduleChunks],
    c3_no_overlap 0 [⟨0, 44100⟩, ⟨0, 44100⟩] 0 (by simp [scheduleChunks])⟩

/-- C4: each `audio_chunk` invocation rewrites the watermark to
`max(clockNow, queueEndTime)` plus the chunk's non-negative duration,
which is never below its previous value, so `ttsQueueEndRef` is
monotonically non-decreasing across any sequence of `audio_chunk`
events. -/
theorem c4_watermark_monotone (q0 : ℚ) (events : List ChunkEvent) :
    (∀ (q : ℚ) (e : ChunkEvent),
      queueEndAfter q e =
          max e.clockNow q + chunkDuration e.pcmLen ∧
        0 ≤ chunkDuration e.pcmLen ∧ q ≤ queueEndAfter q e) ∧
    List.Chain' (· ≤ ·) (queueEndTrace q0 events) :=
  ⟨fun q e => ⟨rfl, chunkDuration_nonneg e.pcmLen, queueEnd_le_after q e⟩,
    queueEndTrace_chain' q0 events⟩

/-- C8 counterexample: at a cancellation moment where the playback
clock reads 1 and the socket is closed, the claim requires the
watermark to become the clock's current time (1) and a `barge_in`
notification to be sent; the code sets the watermark to 0 and sends
nothing. -/
theorem c8_stop_counterexample :
    ¬ (((stopTtsPlayback ⟨[7], true, 5, some 1, AgentStatus.speaking, 1⟩
          false).state.ttsQueueEnd = 1) ∧
      "barge_in" ∈ (stopTtsPlayback ⟨[7], true, 5, some 1,
          AgentStatus.speaking, 1⟩ false).sentMessages) := by
  simp [stopTtsPlayback]

/-- C8 (amended): on cancellation `stopTtsPlayback` stops and releases
every tracked source, empties the tracked list, resets the watermark to
0 (not to the clock's current time), clears the end timer, transitions
to idle with zero activity, and sends `barge_in` exactly when the
socket is open. -/
theorem c8_stop_playback (s : TtsPlaybackState) (wsOpen : Bool) :
    (stopTtsPlayback s wsOpen).stoppedSources = s.ttsSources ∧
    (stopTtsPlayback s wsOpen).state.ttsSources = [] ∧
    (stopTtsPlayback s wsOpen).state.isTtsPlaying = false ∧
    (stopTtsPlayback s wsOpen).state.ttsQueueEnd = 0 ∧
    (stopTtsPlayback s wsOpen).state.ttsEndTimer = none ∧
    (stopTtsPlayback s wsOpen).state.agentStatus = AgentStatus.idle ∧
    (stopTtsPlayback s wsOpen).state.agentActivity = 0 ∧
    (stopTtsPlayback s wsOpen).sentMessages =
      (if wsOpen then ["barge_in"] else []) :=
  ⟨rfl, rfl, rfl, rfl, rfl, rfl, rfl, rfl⟩

/-- C9 counterexample: on a muted tick during active TTS playback with
a qualifying frame, the claim requires the barge-in detector still to
be fed (its counter would become 1); the code returns before the
detector runs, leaving the counter at 0. -/
theorem c9_muted_tick_counterexample :
    ¬ ((onAudioProcess true true ⟨0, 0, 0⟩ ⟨1/10, true, 600⟩ [] 16000).1 =
        (bargeStep ⟨0, 0, 0⟩ ⟨1/10, true, 600⟩).1) := by
  norm_num [onAudioProcess, bargeStep, speechThreshold]

/-- C9 (amended): a PCM16 frame is transmitted iff the socket is open
and the session is not muted; when muted (or the socket is not open)
the tick does nothing at all — the barge-in detector is not fed
either; when open and unmuted the tick runs the detector and transmits
the resampled, PCM16-encoded frame. -/
theorem c9_uplink_tick (wsOpen muted : Bool) (s : BargeInState)
    (t : AudioTick) (input : List ℚ) (ctxRate : ℚ) :
    ((onAudioProcess wsOpen muted s t input ctxRate).2.2.isSome =
        (wsOpen && !muted)) ∧
    (onAudioProcess wsOpen true s t input ctxRate = (s, false, none)) ∧
    (onAudioProcess true false s t input ctxRate =
      ((bargeStep s t).1, (bargeStep s t).2,
        some (floatTo16BitPCM (downsampleBuffer input ctxRate 16000)))) := by
  refine ⟨?_, ?_, ?_⟩
  · cases wsOpen <;> cases muted <;> simp [onAudioProcess]
  · cases wsOpen <;> simp [onAudioProcess]
  · simp [onAudioProcess]

/-! ### Helper lemmas: barge-in detector -/

theorem frameQualifies_iff (t : AudioTick) :
    frameQualifies t = true ↔
      (t.isTtsPlaying = true ∧ speechThreshold < t.rms) := by
  simp [frameQualifies]

theorem firedAt_eq (s0 : BargeInState) (ts : List AudioTick) (j : ℕ)
    (t : AudioTick) (ht : ts[j]? = some t) :
    firedAt s0 ts j = (bargeStep (bargeRun s0 (ts.take j)) t).2 := by
  unfold firedAt
  rw [ht]

theorem tickNow_eq (ts : List AudioTick) (j : ℕ) (t : AudioTick)
    (ht : ts[j]? = some t) : tickNow ts j = t.now := by
  unfold tickNow
  rw [ht]

theorem qualAt_eq (ts : List AudioTick) (j : ℕ) (t : AudioTick)
    (ht : ts[j]? = some t) : qualAt ts j = frameQualifies t := by
  unfold qualAt
  rw [ht]

theorem bargeStep_ttsStartTime (s : BargeInState) (t : AudioTick) :
    (bargeStep s t).1.ttsStartTime = s.ttsStartTime := by
  simp only [bargeStep]
  split_ifs <;> rfl

theorem bargeRun_ttsStartTime (s0 : BargeInState) (ts : List AudioTick) :
    (bargeRun s0 ts).ttsStartTime = s0.ttsStartTime := by
  induction ts generalizing s0 with
  | nil => rfl
  | cons t ts ih =>
    show (bargeRun (bargeStep s0 t).1 ts).ttsStartTime = _
    rw [ih, bargeStep_ttsStartTime]

theorem bargeStep_fired_lastBargeIn (s : BargeInState) (t : AudioTick)
    (h : (bargeStep s t).2 = true) : (bargeStep s t).1.lastBargeIn = t.now := by
  simp only [bargeStep] at h ⊢
  split_ifs at h ⊢ <;> simp_all

theorem bargeStep_notFired_lastBargeIn (s : BargeInState) (t : AudioTick)
    (h : (bargeStep s t).2 = false) :
    (bargeStep s t).1.lastBargeIn = s.lastBargeIn := by
  simp only [bargeStep] at h ⊢
  split_ifs at h ⊢ <;> simp_all

theorem bargeStep_fired_iff (s : BargeInState) (t : AudioTick) :
    (bargeStep s t).2 = true ↔
      ((t.isTtsPlaying = true ∧ speechThreshold < t.rms) ∧
        2 ≤ s.speechFrameCount ∧
        500 < t.now - s.ttsStartTime ∧ 1000 < t.now - s.lastBargeIn) := by
  simp only [bargeStep]
  by_cases h1 : t.isTtsPlaying = true ∧ speechThreshold < t.rms
  · rw [if_pos h1]
    by_cases hc : 2 ≤ s.speechFrameCount
    · rw [if_pos (show (t.isTtsPlaying = true ∧ 3 ≤ s.speechFrameCount + 1) from
        ⟨h1.1, by omega⟩)]
      by_cases h3 : 500 < t.now - s.ttsStartTime ∧ 1000 < t.now - s.lastBargeIn
      · rw [if_pos h3]
        simp [h1, hc, h3]
      · rw [if_neg h3]
        simp only [Bool.false_eq_true, false_iff]
        intro hcontra
        exact h3 ⟨hcontra.2.2.1, hcontra.2.2.2⟩
    · rw [if_neg (show ¬(t.isTtsPlaying = true ∧ 3 ≤ s.speechFrameCount + 1) from
        fun hcond => hc (by omega))]
      simp only [Bool.false_eq_true, false_iff]
      intro hcontra
      exact hc hcontra.2.1
  · rw [if_neg h1]
    rw [if_neg (show ¬(t.isTtsPlaying = true ∧ 3 ≤ 0) from fun hcond => by omega)]
    simp only [Bool.false_eq_true, false_iff]
    intro hcontra
    exact h1 hcontra.1

theorem bargeStep_counter (s : BargeInState) (t : AudioTick) :
    (bargeStep s t).1.speechFrameCount = 0 ∨
      ((bargeStep s t).1.speechFrameCount = s.speechFrameCount + 1 ∧
        frameQualifies t = true) := by
  simp only [bargeStep]
  by_cases h1 : t.isTtsPlaying = true ∧ speechThreshold < t.rms
  · rw [if_pos h1]
    by_cases h2 : t.isTtsPlaying = true ∧ 3 ≤ s.speechFrameCount + 1
    · rw [if_pos h2]
      by_cases h3 : 500 < t.now - s.ttsStartTime ∧ 1000 < t.now - s.lastBargeIn
      · rw [if_pos h3]
        exact Or.inl rfl
      · rw [if_neg h3]
        exact Or.inl rfl
    · rw [if_neg h2]
      exact Or.inr ⟨rfl, (frameQualifies_iff t).mpr h1⟩
  · rw [if_neg h1]
    rw [if_neg (show ¬(t.isTtsPlaying = true ∧ 3 ≤ 0) from fun hcond => by omega)]
    exact Or.inl rfl

theorem bargeRun_take_succ (s0 : BargeInState) (ts : List AudioTick)
    (j : ℕ) (t : AudioTick) (ht : ts[j]? = some t) :
    bargeRun s0 (ts.take (j + 1)) =
      (bargeStep (bargeRun s0 (ts.take j)) t).1 := by
  rw [List.take_succ, ht]
  simp [bargeRun, List.foldl_append]

theorem bargeRun_counter_spec (s0 : BargeInState) (ts : List AudioTick)
    (h0 : s0.speechFrameCount = 0) :
    ∀ j, j ≤ ts.length →
      (bargeRun s0 (ts.take j)).speechFrameCount ≤ j ∧
      ∀ i, j - (bargeRun s0 (ts.take j)).speechFrameCount ≤ i → i < j →
        qualAt ts i = true := by
  intro j
  induction j with
  | zero =>
    intro _
    refine ⟨?_, fun i _ hi => absurd hi (by omega)⟩
    simp [bargeRun, h0]
  | succ j ih =>
    intro hj
    have hjlen : j < ts.length := by omega
    obtain ⟨hle, hwin⟩ := ih (by omega)
    have ht : ts[j]? = some (ts.get ⟨j, hjlen⟩) := List.getElem?_eq_getElem hjlen
    have hrun := bargeRun_take_succ s0 ts j _ ht
    rcases bargeStep_counter (bargeRun s0 (ts.take j)) (ts.get ⟨j, hjlen⟩) with hz | ⟨hs, hq⟩
    · rw [hrun, hz]
      exact ⟨by omega, fun i h1 h2 => absurd h1 (by omega)⟩
    · rw [hrun, hs]
      refine ⟨by omega, fun i h1 h2 => ?_⟩
      by_cases hij : i < j
      · exact hwin i (by omega) hij
      · have : i = j := by omega
        subst this
        rw [qualAt_eq ts i _ ht]
        exact hq

theorem bargeRun_lastBargeIn_spec (s0 : BargeInState) (ts : List AudioTick) :
    ∀ j, j ≤ ts.length →
      ((∀ i, i < j → firedAt s0 ts i = false) ∧
        (bargeRun s0 (ts.take j)).lastBargeIn = s0.lastBargeIn) ∨
      ∃ i, i < j ∧ firedAt s0 ts i = true ∧
        (bargeRun s0 (ts.take j)).lastBargeIn = tickNow ts i ∧
        ∀ i', i < i' → i' < j → firedAt s0 ts i' = false := by
  intro j
  induction j with
  | zero =>
    intro _
    exact Or.inl ⟨fun i hi => absurd hi (by omega), by simp [bargeRun]⟩
  | succ j ih =>
    intro hj
    have hjlen : j < ts.length := by omega
    have ht : ts[j]? = some (ts.get ⟨j, hjlen⟩) := List.getElem?_eq_getElem hjlen
    have hrun := bargeRun_take_succ s0 ts j _ ht
    have hfj := firedAt_eq s0 ts j _ ht
    by_cases hf : (bargeStep (bargeRun s0 (ts.take j)) (ts.get ⟨j, hjlen⟩)).2 = true
    · refine Or.inr ⟨j, by omega, by rw [hfj]; exact hf, ?_, ?_⟩
      · rw [hrun, bargeStep_fired_lastBargeIn _ _ hf, tickNow_eq ts j _ ht]
      · exact fun i' h1 h2 => absurd h1 (by omega)
    · have hnot : (bargeStep (bargeRun s0 (ts.take j)) (ts.get ⟨j, hjlen⟩)).2 = false :=
        Bool.eq_false_iff.mpr hf
      have hlast : (bargeRun s0 (ts.take (j + 1))).lastBargeIn =
          (bargeRun s0 (ts.take j)).lastBargeIn := by
        rw [hrun, bargeStep_notFired_lastBargeIn _ _ hnot]
      rcases ih (by omega) with ⟨hnone, heq⟩ | ⟨i, hi, hfi, heq, hafter⟩
      · refine Or.inl ⟨fun i hij => ?_, by rw [hlast, heq]⟩
        by_cases hij' : i < j
        · exact hnone i hij'
        · have : i = j := by omega
          subst this
          rw [hfj]
          exact hnot
      · refine Or.inr ⟨i, by omega, hfi, by rw [hlast]; exact heq,
          fun i' h1 h2 => ?_⟩
        by_cases hij' : i' < j
        · exact hafter i' h1 hij'
        · have : i' = j := by omega
          subst this
          rw [hfj]
          exact hnot

/-- C5: over any tick sequence started with a zeroed consecutive-frame
counter, a barge-in firing at tick `j` implies the three ticks
`j-2, j-1, j` all qualified (RMS above 0.05 while TTS was playing) and
more than 500 ms had elapsed since playback started; and two firings
with no firing between them are always more than 1000 ms apart. -/
theorem c5_barge_in_discipline (s0 : BargeInState) (ts : List AudioTick)
    (h0 : s0.speechFrameCount = 0) :
    (∀ j, j < ts.length → firedAt s0 ts j = true →
      2 ≤ j ∧ qualAt ts (j - 2) = true ∧ qualAt ts (j - 1) = true ∧
        qualAt ts j = true ∧ 500 < tickNow ts j - s0.ttsStartTime) ∧
    (∀ j k, j < k → k < ts.length →
      firedAt s0 ts j = true → firedAt s0 ts k = true →
      (∀ i, j < i → i < k → firedAt s0 ts i = false) →
      1000 < tickNow ts k - tickNow ts j) := by
  constructor
  · intro j hj hfire
    have ht : ts[j]? = some (ts.get ⟨j, hj⟩) := List.getElem?_eq_getElem hj
    rw [firedAt_eq s0 ts j _ ht] at hfire
    obtain ⟨hq, hcount, htime, -⟩ :=
      (bargeStep_fired_iff (bargeRun s0 (ts.take j)) (ts.get ⟨j, hj⟩)).mp hfire
    obtain ⟨hle, hwin⟩ := bargeRun_counter_spec s0 ts h0 j (by omega)
    have hj2 : 2 ≤ j := by omega
    refine ⟨hj2, ?_, ?_, ?_, ?_⟩
    · exact hwin (j - 2) (by omega) (by omega)
    · exact hwin (j - 1) (by omega) (by omega)
    · rw [qualAt_eq ts j _ ht]
      exact (frameQualifies_iff _).mpr hq
    · rw [tickNow_eq ts j _ ht]
      have hstart : (bargeRun s0 (ts.take j)).ttsStartTime = s0.ttsStartTime :=
        bargeRun_ttsStartTime s0 (ts.take j)
      rw [hstart] at htime
      exact htime
  · intro j k hjk hk hfj hfk hbetween
    have htk : ts[k]? = some (ts.get ⟨k, hk⟩) := List.getElem?_eq_getElem hk
    rw [firedAt_eq s0 ts k _ htk] at hfk
    obtain ⟨-, -, -, hgap⟩ :=
      (bargeStep_fired_iff (bargeRun s0 (ts.take k)) (ts.get ⟨k, hk⟩)).mp hfk
    rcases bargeRun_lastBargeIn_spec s0 ts k (by omega) with
      ⟨hnone, -⟩ | ⟨i, hi, hfi, heq, hafter⟩
    · exact absurd hfj (by rw [hnone j hjk]; simp)
    · have hij : i = j := by
        rcases Nat.lt_trichotomy i j with h | h | h
        · exact absurd hfj (by rw [hafter j h hjk]; simp)
        · exact h
        · exact absurd hfi (by rw [hbetween i h hi]; simp)
      subst hij
      rw [heq] at hgap
      rw [tickNow_eq ts k _ htk]
      exact hgap

/-- C5 witness: on six qualifying ticks the detector fires at indices
2 and 5, 2000 ms apart, with the claimed preconditions holding at the
firing points. -/
theorem c5_barge_in_witness :
    (⟨0, 0, 0⟩ : BargeInState).speechFrameCount = 0 ∧
    firedAt ⟨0, 0, 0⟩ bargeDemoTicks 2 = true ∧
    firedAt ⟨0, 0, 0⟩ bargeDemoTicks 5 = true ∧
    (2 ≤ 2 ∧ qualAt bargeDemoTicks 0 = true ∧
      qualAt bargeDemoTicks 1 = true ∧ qualAt bargeDemoTicks 2 = true ∧
      500 < tickNow bargeDemoTicks 2 -
        (⟨0, 0, 0⟩ : BargeInState).ttsStartTime) ∧
    1000 < tickNow bargeDemoTicks 5 - tickNow bargeDemoTicks 2 := by
  have hf2 : firedAt ⟨0, 0, 0⟩ bargeDemoTicks 2 = true := by
    norm_num [bargeDemoTicks, firedAt, bargeRun, bargeStep, speechThreshold]
  have hf5 : firedAt ⟨0, 0, 0⟩ bargeDemoTicks 5 = true := by
    norm_num [bargeDemoTicks, firedAt, bargeRun, bargeStep, speechThreshold]
  refine ⟨rfl, hf2, hf5, ?_, ?_⟩
  · exact (c5_barge_in_discipline ⟨0, 0, 0⟩ bargeDemoTicks rfl).1 2
      (by norm_num [bargeDemoTicks]) hf2
  · exact (c5_barge_in_discipline ⟨0, 0, 0⟩ bargeDemoTicks rfl).2 2 5
      (by norm_num) (by norm_num [bargeDemoTicks]) hf2 hf5
      (fun i h1 h2 => by
        interval_cases i <;>
          norm_num [bargeDemoTicks, firedAt, bargeRun, bargeStep,
            speechThreshold])

/-! ### Helper lemmas: upload pipeline -/

theorem chunksSize_append (a b : List Chunk) :
    chunksSize (a ++ b) = chunksSize a + chunksSize b := by
  simp [chunksSize]

theorem length_blobOf (cs : List Chunk) :
    (blobOf cs).length = chunksSize cs := by
  simp [blobOf, chunksSize]

theorem range'_one_concat (n : ℕ) :
    List.range' 1 (n + 1) = List.range' 1 n ++ [n + 1] := by
  rw [List.range'_concat]
  simp [Nat.add_comm]

theorem uploadInv_init : UploadInv 0 initUploadState := by
  refine ⟨rfl, rfl, rfl, ?_⟩
  intro p hp
  simp [initUploadState] at hp

theorem uploadInv_attempt {d : ℕ} {s : UploadPipelineState}
    (arrived : List Chunk) (ok : Bool)
    (hmin : MIN_PART_SIZE ≤ chunksSize s.pendingChunks) (h : UploadInv d s) :
    UploadInv (d + chunksSize arrived) (attemptPartUpload s arrived ok) := by
  obtain ⟨hnum, hctr, hsum, hsz⟩ := h
  cases ok with
  | false =>
    refine ⟨hnum, hctr, ?_, hsz⟩
    show (s.uploadedParts.map fun p => p.bytes.length).sum +
        chunksSize (s.pendingChunks ++ arrived) = d + chunksSize arrived
    rw [chunksSize_append]
    omega
  | true =>
    refine ⟨?_, ?_, ?_, ?_⟩
    · show (s.uploadedParts ++
          [UploadedPart.mk s.partNumber (blobOf s.pendingChunks)]).map UploadedPart.part_number =
        List.range' 1 (s.uploadedParts ++
          [UploadedPart.mk s.partNumber (blobOf s.pendingChunks)]).length
      rw [List.map_append, List.length_append, hnum, hctr]
      simp [range'_one_concat]
    · show s.partNumber + 1 = (s.uploadedParts ++
          [UploadedPart.mk s.partNumber (blobOf s.pendingChunks)]).length + 1
      rw [List.length_append, hctr]
      simp
    · show ((s.uploadedParts ++
          [UploadedPart.mk s.partNumber (blobOf s.pendingChunks)]).map
            fun p => p.bytes.length).sum + chunksSize arrived =
        d + chunksSize arrived
      rw [List.map_append, List.sum_append]
      simp only [List.map_cons, List.map_nil, List.sum_cons, List.sum_nil]
      rw [length_blobOf]
      omega
    · intro p hp
      rcases List.mem_append.mp hp with hp | hp
      · exact hsz p hp
      · rw [List.mem_singleton.mp hp, length_blobOf]
        exact hmin

theorem uploadInv_uploadAccumulated {d : ℕ} (s : UploadPipelineState)
    (outs : List Bool) (h : UploadInv d s) :
    UploadInv d (uploadAccumulatedChunks s (outs.map fun b => ([], b))) := by
  induction outs generalizing s with
  | nil => exact h
  | cons b outs ih =>
    rw [List.map_cons, uploadAccumulatedChunks]
    by_cases hlt : chunksSize s.pendingChunks < MIN_PART_SIZE
    · rw [if_pos hlt]
      exact h
    · rw [if_neg hlt]
      have h' := uploadInv_attempt [] b (le_of_not_lt hlt) h
      rw [show chunksSize ([] : List Chunk) = 0 from rfl, Nat.add_zero] at h'
      exact ih _ h'

theorem uploadInv_onData {d : ℕ} (s : UploadPipelineState) (c : Chunk)
    (h : UploadInv d s) :
    UploadInv (d + c.length) (onDataAvailable s c [([], true)]) := by
  rw [onDataAvailable]
  by_cases hc : c.length = 0
  · rw [if_pos hc, hc, Nat.add_zero]
    exact h
  · rw [if_neg hc]
    obtain ⟨hnum, hctr, hsum, hsz⟩ := h
    have h' : UploadInv (d + c.length)
        { s with pendingChunks := s.pendingChunks ++ [c] } := by
      refine ⟨hnum, hctr, ?_, hsz⟩
      show (s.uploadedParts.map fun p => p.bytes.length).sum +
          chunksSize (s.pendingChunks ++ [c]) = d + c.length
      rw [chunksSize_append]
      have : chunksSize [c] = c.length := by simp [chunksSize]
      omega
    have hres := uploadInv_uploadAccumulated _ [true] h'
    simpa using hres

theorem uploadInv_run (chunks : List Chunk) :
    ∀ (d : ℕ) (s : UploadPipelineState), UploadInv d s →
      UploadInv (d + chunksSize chunks)
        (chunks.foldl (fun s c => onDataAvailable s c [([], true)]) s) := by
  induction chunks with
  | nil =>
    intro d s h
    simpa [chunksSize] using h
  | cons c cs ih =>
    intro d s h
    rw [List.foldl_cons]
    have h2 := ih _ _ (uploadInv_onData s c h)
    have he : d + c.length + chunksSize cs = d + chunksSize (c :: cs) := by
      simp [chunksSize]
      omega
    rwa [he] at h2

theorem onStop_spec {d : ℕ} (s : UploadPipelineState) (h : UploadInv d s) :
    ((onRecorderStop s true).uploadedParts.map fun p => p.bytes.length).sum =
        d ∧
    (onRecorderStop s true).uploadedParts.map UploadedPart.part_number =
      List.range' 1 (onRecorderStop s true).uploadedParts.length ∧
    ∀ p ∈ (onRecorderStop s true).uploadedParts.dropLast,
      MIN_PART_SIZE ≤ p.bytes.length := by
  obtain ⟨hnum, hctr, hsum, hsz⟩ := h
  rw [onRecorderStop]
  by_cases hp : s.pendingChunks = []
  · rw [if_pos hp]
    refine ⟨?_, hnum, ?_⟩
    · rw [hp] at hsum
      simpa [chunksSize] using hsum
    · intro p hmem
      exact hsz p ((List.dropLast_prefix _).subset hmem)
  · rw [if_neg hp, if_pos rfl]
    refine ⟨?_, ?_, ?_⟩
    · show ((s.uploadedParts ++
          [UploadedPart.mk s.partNumber (blobOf s.pendingChunks)]).map
            fun p => p.bytes.length).sum = d
      rw [List.map_append, List.sum_append]
      simp only [List.map_cons, List.map_nil, List.sum_cons, List.sum_nil]
      rw [length_blobOf]
      omega
    · show (s.uploadedParts ++
          [UploadedPart.mk s.partNumber (blobOf s.pendingChunks)]).map UploadedPart.part_number =
        List.range' 1 (s.uploadedParts ++
          [UploadedPart.mk s.partNumber (blobOf s.pendingChunks)]).length
      rw [List.map_append, List.length_append, hnum, hctr]
      simp [range'_one_concat]
    · intro p hmem
      rw [show (s.uploadedParts ++
          [UploadedPart.mk s.partNumber (blobOf s.pendingChunks)]).dropLast = s.uploadedParts
        from List.dropLast_concat ..] at hmem
      exact hsz p hmem

/-- C1: for every recorder segment stream (arbitrary chunk sizes)
followed by a recording stop, with every part upload succeeding, the
uploaded parts' byte lengths sum to exactly the number of delivered
bytes, the part numbers are exactly the gapless sequence `1..k`, and
every part except possibly the last holds at least `MIN_PART_SIZE`
bytes. -/
theorem c1_upload_accounting (chunks : List Chunk) :
    ((runUploadStream chunks).uploadedParts.map fun p => p.bytes.length).sum =
        chunksSize chunks ∧
    (runUploadStream chunks).uploadedParts.map UploadedPart.part_number =
      List.range' 1 (runUploadStream chunks).uploadedParts.length ∧
    ∀ p ∈ (runUploadStream chunks).uploadedParts.dropLast,
      MIN_PART_SIZE ≤ p.bytes.length := by
  have h1 := uploadInv_run chunks 0 initUploadState uploadInv_init
  rw [Nat.zero_add] at h1
  exact onStop_spec _ h1

theorem chunksSize_single (c : Chunk) : chunksSize [c] = c.length := by
  simp [chunksSize]

theorem onData_big (c : Chunk) (hc : c.length = 5242880)
    (ps : List UploadedPart) (n : ℕ) :
    onDataAvailable ⟨[], ps, n⟩ c [([], true)] =
      ⟨[], ps ++ [UploadedPart.mk n c], n + 1⟩ := by
  have hc0 : ¬ c.length = 0 := by omega
  have hguard : ¬ chunksSize ([] ++ [c]) < MIN_PART_SIZE := by
    rw [List.nil_append, chunksSize_single, hc, MIN_PART_SIZE]
    norm_num
  have hblob : blobOf ([] ++ [c]) = c := by
    rw [List.nil_append, blobOf, List.flatten_cons, List.flatten_nil,
      List.append_nil]
  rw [onDataAvailable, if_neg hc0]
  show uploadAccumulatedChunks ⟨[] ++ [c], ps, n⟩ [([], true)] = _
  rw [uploadAccumulatedChunks, if_neg hguard, uploadAccumulatedChunks]
  show UploadPipelineState.mk []
      (ps ++ [UploadedPart.mk n (blobOf ([] ++ [c]))]) (n + 1) = _
  rw [hblob]

theorem runUploadStream_two_big (c : Chunk) (hc : c.length = 5242880) :
    runUploadStream [c, c] =
      ⟨[], [UploadedPart.mk 1 c, UploadedPart.mk 2 c], 3⟩ := by
  show onRecorderStop
      (onDataAvailable (onDataAvailable initUploadState c [([], true)])
        c [([], true)]) true = _
  rw [show initUploadState = ⟨[], [], 1⟩ from rfl, onData_big c hc [] 1,
    List.nil_append, onData_big c hc [UploadedPart.mk 1 c] 2,
    onRecorderStop, if_pos rfl]
  rfl

/-- C1 witness: two segments of exactly 5 MiB each; the first becomes
part 1 (proactively uploaded, meeting the minimum size) and the second
part 2. -/
theorem c1_upload_accounting_witness :
    ((⟨1, List.replicate 5242880 0⟩ : UploadedPart) ∈
      (runUploadStream [List.replicate 5242880 0,
        List.replicate 5242880 0]).uploadedParts.dropLast) ∧
    MIN_PART_SIZE ≤ (List.replicate 5242880 (0 : ℕ)).length := by
  have hrun := runUploadStream_two_big (List.replicate 5242880 0)
    (List.length_replicate 5242880 0)
  have hmem : (⟨1, List.replicate 5242880 0⟩ : UploadedPart) ∈
      (runUploadStream [List.replicate 5242880 0,
        List.replicate 5242880 0]).uploadedParts.dropLast := by
    rw [hrun]
    exact List.mem_singleton.mpr rfl
  exact ⟨hmem,
    (c1_upload_accounting [List.replicate 5242880 0,
      List.replicate 5242880 0]).2.2 ⟨1, List.replicate 5242880 0⟩ hmem⟩

/-- C2: when a part upload fails, the sealed chunks are returned to the
front of the pending buffer in their original order (ahead of any
segments that arrived during the attempt), the part-number counter is
restored, and no etag entry is recorded; an immediately following
successful retry uploads exactly the originally sealed bytes under the
reused number, after which the recorded part numbers are still the
gapless sequence `1..k` (no number skipped or duplicated). -/
theorem c2_failed_part_retry (s : UploadPipelineState) (arrived : List Chunk)
    (d : ℕ) (hmin : MIN_PART_SIZE ≤ chunksSize s.pendingChunks)
    (hinv : UploadInv d s) :
    (attemptPartUpload s arrived false).pendingChunks =
        s.pendingChunks ++ arrived ∧
    (attemptPartUpload s arrived false).partNumber = s.partNumber ∧
    (attemptPartUpload s arrived false).uploadedParts = s.uploadedParts ∧
    (uploadAccumulatedChunks s [([], false), ([], true)]).uploadedParts =
      s.uploadedParts ++ [UploadedPart.mk s.partNumber (blobOf s.pendingChunks)] ∧
    (uploadAccumulatedChunks s
        [([], false), ([], true)]).uploadedParts.map UploadedPart.part_number =
      List.range' 1 (uploadAccumulatedChunks s
        [([], false), ([], true)]).uploadedParts.length := by
  have hs1 : chunksSize (attemptPartUpload s [] false).pendingChunks =
      chunksSize s.pendingChunks := by
    show chunksSize (s.pendingChunks ++ []) = chunksSize s.pendingChunks
    rw [List.append_nil]
  have hchain : uploadAccumulatedChunks s [([], false), ([], true)] =
      attemptPartUpload (attemptPartUpload s [] false) [] true := by
    rw [uploadAccumulatedChunks, if_neg (not_lt.mpr hmin),
      uploadAccumulatedChunks, if_neg (by rw [hs1]; exact not_lt.mpr hmin),
      uploadAccumulatedChunks]
  refine ⟨rfl, rfl, rfl, ?_, ?_⟩
  · rw [hchain]
    show (attemptPartUpload s [] false).uploadedParts ++
        [UploadedPart.mk (attemptPartUpload s [] false).partNumber
          (blobOf (attemptPartUpload s [] false).pendingChunks)] =
      s.uploadedParts ++ [UploadedPart.mk s.partNumber (blobOf s.pendingChunks)]
    show s.uploadedParts ++
        [UploadedPart.mk s.partNumber (blobOf (s.pendingChunks ++ []))] =
      s.uploadedParts ++ [UploadedPart.mk s.partNumber (blobOf s.pendingChunks)]
    rw [List.append_nil]
  · have h1 := uploadInv_attempt [] false hmin hinv
    have hmin1 : MIN_PART_SIZE ≤
        chunksSize (attemptPartUpload s [] false).pendingChunks := by
      rw [hs1]
      exact hmin
    have h2 := uploadInv_attempt [] true hmin1 h1
    rw [hchain]
    exact h2.1

theorem uploadInv_fresh (c : Chunk) (n : ℕ) (hc : c.length = n) :
    UploadInv n ⟨[c], [], 1⟩ := by
  subst hc
  refine ⟨rfl, rfl, ?_, ?_⟩
  · show (List.map (fun p : UploadedPart => p.bytes.length) []).sum +
      chunksSize [c] = c.length
    rw [List.map_nil, List.sum_nil, Nat.zero_add, chunksSize_single]
  · intro p hp
    exact absurd hp (List.not_mem_nil p)

theorem minPart_le_single (c : Chunk) (hc : MIN_PART_SIZE ≤ c.length) :
    MIN_PART_SIZE ≤ chunksSize [c] := by
  rw [chunksSize_single]
  exact hc

/-- C2 witness: a single pending 5 MiB segment whose upload fails once
and then succeeds. -/
theorem c2_failed_part_retry_witness :
    MIN_PART_SIZE ≤ chunksSize
      (⟨[List.replicate 5242880 0], [], 1⟩ :
        UploadPipelineState).pendingChunks ∧
    ((attemptPartUpload ⟨[List.replicate 5242880 0], [], 1⟩ []
          false).pendingChunks = [List.replicate 5242880 0] ++ [] ∧
      (attemptPartUpload ⟨[List.replicate 5242880 0], [], 1⟩ []
          false).partNumber = 1 ∧
      (attemptPartUpload ⟨[List.replicate 5242880 0], [], 1⟩ []
          false).uploadedParts = [] ∧
      (uploadAccumulatedChunks ⟨[List.replicate 5242880 0], [], 1⟩
          [([], false), ([], true)]).uploadedParts =
        [] ++ [UploadedPart.mk 1 (blobOf [List.replicate 5242880 0])] ∧
      (uploadAccumulatedChunks ⟨[List.replicate 5242880 0], [], 1⟩
          [([], false), ([], true)]).uploadedParts.map
            UploadedPart.part_number =
        List.range' 1 (uploadAccumulatedChunks
          ⟨[List.replicate 5242880 0], [], 1⟩
          [([], false), ([], true)]).uploadedParts.length) := by
  have hlen : (List.replicate 5242880 (0 : ℕ)).length = 5242880 :=
    List.length_replicate 5242880 0
  have hclen : MIN_PART_SIZE ≤ (List.replicate 5242880 (0 : ℕ)).length :=
    le_of_le_of_eq (by norm_num [MIN_PART_SIZE]) hlen.symm
  have hmin : MIN_PART_SIZE ≤ chunksSize
      (⟨[List.replicate 5242880 0], [], 1⟩ :
        UploadPipelineState).pendingChunks :=
    minPart_le_single _ hclen
  have hinv : UploadInv 5242880 ⟨[List.replicate 5242880 0], [], 1⟩ :=
    uploadInv_fresh (List.replicate 5242880 0) 5242880 hlen
  exact ⟨hmin,
    c2_failed_part_retry ⟨[List.replicate 5242880 0], [], 1⟩ [] 5242880
      hmin hinv⟩

end Impasse
